import Mathlib

/-!
Verification of the fuzzy text-deduplication and content-segmentation core of
the ebook-scraping program (`code/scraper.py`).

The Python functions are shallowly embedded as executable Lean functions over
`String` / `List Char`.  Library behaviour used by the code is modelled as
follows, restricted to the character repertoire the program processes (ASCII
and the Bengali block — all of the program's configuration tables and markers
are Bengali or ASCII):

* `unicodedata.normalize('NFKC', ...)` is modelled per character by
  `charNFKC`: every character of the repertoire is NFKC-fixed except the three
  precomposed Bengali letters U+09DC, U+09DD and U+09DF, which are composition
  exclusions and decompose to base letter + nukta (U+09BC).
* `str.lower()` is modelled by `pyLowerChar` (ASCII case mapping; the Bengali
  script has no case).
* the regex class `\w` (Python `str` semantics: alphanumerics plus underscore)
  is modelled by `isWordChar`; the class `\s` by `isPySpace`.  In particular
  Bengali combining signs (vowel signs, virama U+09CD, nukta U+09BC) are not
  alphanumeric and hence not word characters, while Bengali letters and digits
  are.
* Bengali strings from the source are transcribed codepoint-for-codepoint with
  `\uXXXX` escapes (the source stores e.g. the letter "য়" in decomposed form
  U+09AF U+09BC).
-/

namespace Scraper

open scoped List

/-- Model of the regex class `\s` for Python `str` (ASCII whitespace,
the C1/Unicode whitespace characters). -/
def isPySpace (c : Char) : Bool :=
  decide (c.toNat = 0x20 ∨ (0x9 ≤ c.toNat ∧ c.toNat ≤ 0xD) ∨
    (0x1C ≤ c.toNat ∧ c.toNat ≤ 0x1F) ∨ c.toNat = 0x85 ∨ c.toNat = 0xA0 ∨
    c.toNat = 0x1680 ∨ (0x2000 ≤ c.toNat ∧ c.toNat ≤ 0x200A) ∨
    c.toNat = 0x2028 ∨ c.toNat = 0x2029 ∨ c.toNat = 0x202F ∨
    c.toNat = 0x205F ∨ c.toNat = 0x3000)

/-- Model of the regex class `\w` for Python `str` (alphanumerics plus
underscore), restricted to ASCII and the Bengali block: ASCII digits, ASCII
letters, underscore, Bengali letters (category Lo), Bengali digits (Nd) and
the Bengali numeric signs (No).  Combining signs (Mn/Mc), punctuation such as
the danda U+0964, and currency/other signs are not word characters. -/
def isWordChar (c : Char) : Bool :=
  decide ((0x30 ≤ c.toNat ∧ c.toNat ≤ 0x39) ∨ (0x41 ≤ c.toNat ∧ c.toNat ≤ 0x5A) ∨
    (0x61 ≤ c.toNat ∧ c.toNat ≤ 0x7A) ∨ c.toNat = 0x5F ∨
    c.toNat = 0x980 ∨
    ((0x985 ≤ c.toNat ∧ c.toNat ≤ 0x9B9) ∧
      c.toNat ≠ 0x98D ∧ c.toNat ≠ 0x98E ∧ c.toNat ≠ 0x991 ∧ c.toNat ≠ 0x992 ∧
      c.toNat ≠ 0x9A9 ∧ c.toNat ≠ 0x9B1 ∧ c.toNat ≠ 0x9B3 ∧ c.toNat ≠ 0x9B4 ∧
      c.toNat ≠ 0x9B5) ∨
    c.toNat = 0x9BD ∨ c.toNat = 0x9CE ∨
    ((0x9DC ≤ c.toNat ∧ c.toNat ≤ 0x9E1) ∧ c.toNat ≠ 0x9DE) ∨
    (0x9E6 ≤ c.toNat ∧ c.toNat ≤ 0x9F1) ∨ (0x9F4 ≤ c.toNat ∧ c.toNat ≤ 0x9F9))

/-- Per-character model of `unicodedata.normalize('NFKC', ...)` on the
repertoire (see the module comment): the three precomposed Bengali letters
decompose (they are excluded from composition), everything else is fixed. -/
def charNFKC (c : Char) : List Char :=
  if c.toNat = 0x9DC then [Char.ofNat 0x9A1, Char.ofNat 0x9BC]
  else if c.toNat = 0x9DD then [Char.ofNat 0x9A2, Char.ofNat 0x9BC]
  else if c.toNat = 0x9DF then [Char.ofNat 0x9AF, Char.ofNat 0x9BC]
  else [c]

/-- Model of `str.lower()` (ASCII case mapping; Bengali has no case). -/
def pyLowerChar (c : Char) : Char :=
  if 0x41 ≤ c.toNat ∧ c.toNat ≤ 0x5A then Char.ofNat (c.toNat + 0x20) else c

/-- Split a character list into its maximal runs of non-`\s` characters
(the words), accumulating the current word reversed in `cur`.  This is the
semantics shared by Python's `str.split()` and by
`re.sub(r'\s+', ' ', s).strip()` (the latter is the words joined by `' '`). -/
def wordsAux : List Char → List Char → List (List Char)
  | [], cur => if cur = [] then [] else [cur.reverse]
  | c :: t, cur =>
    if isPySpace c then (if cur = [] then wordsAux t [] else cur.reverse :: wordsAux t [])
    else wordsAux t (c :: cur)

/-- Join words with single spaces (Python `' '.join`). -/
def joinSp : List (List Char) → List Char
  | [] => []
  | [w] => w
  | w :: ws => w ++ ' ' :: joinSp ws

/-- Model of `re.sub(r'\s+', ' ', s).strip()`: collapse whitespace runs to single
spaces and trim the ends — equivalently, the words joined by single spaces. -/
def collapseTrim (l : List Char) : List Char := joinSp (wordsAux l [])

/-- The normalization pipeline of `normalize_text` on the character list:
NFKC, lowercase, delete every character matching `[^\w\s]`, collapse
whitespace and trim. -/
def normList (l : List Char) : List Char :=
  collapseTrim (((l.flatMap charNFKC).map pyLowerChar).filter fun c => isWordChar c || isPySpace c)

/-- Definition `normalize_text` from `scraper.py` (lines 66–88): Unicode NFKC
normalization, lowercasing, removal of every character that is not a word
character or whitespace, collapsing of whitespace runs to single spaces, and
trimming.  The `if not text` guard maps the empty string to itself. -/
def normalize_text (text : String) : String :=
  if text = "" then "" else ⟨normList text.data⟩

/-- Wrapper: `normalize_text` lifted to `Option String`: the Python function's
`if not text` guard also maps `None` to the empty string. -/
def normalize_text_opt : Option String → String
  | none => ""
  | some t => normalize_text t

/-- Model of `needle in haystack` on Python strings: contiguous-substring test. -/
def containsSub (needle : List Char) : List Char → Bool
  | [] => needle.isEmpty
  | c :: rest => needle.isPrefixOf (c :: rest) || containsSub needle rest

/-- Function `inStr n h` models the Python expression `n in h` for strings. -/
def inStr (needle haystack : String) : Bool := containsSub needle.data haystack.data

/-- One pass of Python `str.replace(pat, rep)` (all non-overlapping
occurrences, scanning left to right), with explicit fuel; the fuel
`s.length + 1` used by `pyReplace` is always sufficient because every step
consumes at least one character of `s` (the program never calls `replace`
with an empty pattern). -/
def replaceFuel : Nat → List Char → List Char → List Char → List Char
  | 0, s, _, _ => s
  | _ + 1, [], _, _ => []
  | n + 1, c :: s, pat, rep =>
    if pat ≠ [] ∧ pat.isPrefixOf (c :: s) then
      rep ++ replaceFuel n ((c :: s).drop pat.length) pat rep
    else c :: replaceFuel n s pat rep

/-- Python `s.replace(pat, rep)`. -/
def pyReplace (s pat rep : String) : String :=
  ⟨replaceFuel (s.data.length + 1) s.data pat.data rep.data⟩

-- ## Configuration tables of `scraper.py`, transcribed codepoint-for-codepoint

/-- The `word_to_digit` table of `normalize_bengali_numbers` (lines 99–110).
The Python dict literal repeats every key (e.g. `'প্রথম': '১ম', 'প্রথম': '1ম'`),
so by Python dict semantics the last value wins: each ordinal word maps to its
ASCII-digit variant only. -/
def word_to_digit : List (String × String) :=
  [("প্রথম", "1ম"),                -- প্রথম → 1ম
   ("দ্বিতীয়", "2য়"), -- দ্বিতীয় → 2য়
   ("তৃতীয়", "3য়"),    -- তৃতীয় → 3য়
   ("চতুর্থ", "4র্থ"), -- চতুর্থ → 4র্থ
   ("পঞ্চম", "5ম"),                -- পঞ্চম → 5ম
   ("ষষ্ঠ", "6ষ্ঠ"),          -- ষষ্ঠ → 6ষ্ঠ
   ("সপ্তম", "7ম"),                -- সপ্তম → 7ম
   ("অষ্টম", "8ম"),                -- অষ্টম → 8ম
   ("নবম", "9ম"),                            -- নবম → 9ম
   ("দশম", "10ম")]                           -- দশম → 10ম

/-- The `bengali_to_english` digit table (lines 113–116). -/
def bengali_to_english : List (String × String) :=
  [("০", "0"), ("১", "1"), ("২", "2"), ("৩", "3"),
   ("৪", "4"), ("৫", "5"), ("৬", "6"), ("৭", "7"),
   ("৮", "8"), ("৯", "9")]

/-- Definition `normalize_bengali_numbers` from `scraper.py` (lines 90–135): the base
normalized form, then (if any Bengali digit was present) the form with
Bengali digits replaced by ASCII digits, then one form per ordinal-word table
entry whose normalized word occurs in the normalized text, with that word
replaced by the normalized digit variant. -/
def normalize_bengali_numbers (text : String) : List String :=
  if text = "" then [""]
  else
    let normalized := normalize_text text
    let versions : List String := [normalized]
    let english_version := bengali_to_english.foldl (fun s p => pyReplace s p.1 p.2) normalized
    let versions := if english_version ≠ normalized then versions ++ [english_version] else versions
    word_to_digit.foldl
      (fun vs p =>
        let word_norm := normalize_text p.1
        let digit_norm := normalize_text p.2
        if inStr word_norm normalized then vs ++ [pyReplace normalized word_norm digit_norm]
        else vs)
      versions

/-- The `author_indicators` list of `extract_core_title` (lines 151–154);
these literals are already in normalized form in the source. -/
def author_indicators : List String :=
  ["লখক",                 -- লখক
   "অনবদক",     -- অনবদক
   "সমপদক",     -- সমপদক
   "রপনতর",     -- রপনতর
   "মল",                       -- মল
   "অনবদ",           -- অনবদ
   "রচন",                 -- রচন
   "সকলন"]           -- সকলন

/-- The prefix of the token list of `extract_core_title` up to (and
excluding) the first token after position 0 containing an author indicator
(lines 161–167). -/
def coreParts : Nat → List (List Char) → List (List Char)
  | _, [] => []
  | i, w :: rest =>
    if (author_indicators.any fun ind => containsSub ind.data w) && decide (0 < i) then []
    else w :: coreParts (i + 1) rest

/-- Definition `extract_core_title` from `scraper.py` (lines 137–169): normalize, split
into whitespace-delimited tokens, keep tokens up to the first one (after
position 0) containing an author indicator, and join with single spaces. -/
def extract_core_title (text : String) : String :=
  if text = "" then ""
  else
    let normalized := normalize_text text
    ⟨joinSp (coreParts 0 (wordsAux normalized.data []))⟩

/-- The `common_prefixes` list of `texts_are_similar` (line 234). -/
def common_prefixes : List String :=
  ["লখক",                 -- লখক
   "অনবদক",     -- অনবদক
   "সমপদক",     -- সমপদক
   "মল"]                       -- মল

/-- Model of `s.replace(w, '').strip()` followed by `re.sub(r'\s+', ' ', ...)` as in
the prefix-stripping branch of `texts_are_similar` (lines 239–240, 248–249). -/
def stripWord (s w : String) : String := ⟨collapseTrim (pyReplace s w "").data⟩

/-- Definition `texts_are_similar` from `scraper.py` (lines 171–257).  The Python
function is a chain of early-`return True` checks ending in `return False`,
so it is the disjunction of all its checks, in order: exact equality of
normalized forms; substring containment for normalized forms longer than 10;
core-title equality/containment (both cores nonempty and longer than 5);
the cross product of the Bengali-number variants (equality, or containment
when both are longer than 10); and for each common prefix word, equality or
containment after stripping the word from the side containing it. -/
def texts_are_similar (text1 text2 : String) : Bool :=
  let norm1 := normalize_text text1
  let norm2 := normalize_text text2
  (norm1 == norm2) ||
  (decide (10 < norm1.length) && decide (10 < norm2.length) &&
    (inStr norm1 norm2 || inStr norm2 norm1)) ||
  (let core1 := extract_core_title text1
   let core2 := extract_core_title text2
   (core1 != "") && (core2 != "") && decide (5 < core1.length) && decide (5 < core2.length) &&
     ((core1 == core2) || inStr core1 core2 || inStr core2 core1)) ||
  ((normalize_bengali_numbers text1).any fun v1 =>
    (normalize_bengali_numbers text2).any fun v2 =>
      (v1 == v2) ||
      (decide (10 < v1.length) && decide (10 < v2.length) && (inStr v1 v2 || inStr v2 v1))) ||
  (common_prefixes.any fun p =>
    (inStr p norm1 &&
      (let n1w := stripWord norm1 p
       (n1w == norm2) || (decide (10 < n1w.length) && inStr n1w norm2))) ||
    (inStr p norm2 &&
      (let n2w := stripWord norm2 p
       (n2w == norm1) || (decide (10 < n2w.length) && inStr n2w norm1))))

-- ## The header pruner (`remove_redundant_headers`, lines 259–416)

/-- The `section_mappings` table of `remove_redundant_headers`
(lines 273–284): ordinal word → its three variants (Bengali-digit form, the
word itself, ASCII-digit form). -/
def section_mappings : List (String × List String) :=
  [("প্রথম", ["১ম", "প্রথম", "1ম"]),
   ("দ্বিতীয়", ["২য়", "দ্বিতীয়", "2য়"]),
   ("তৃতীয়", ["৩য়", "তৃতীয়", "3য়"]),
   ("চতুর্থ", ["৪র্থ", "চতুর্থ", "4র্থ"]),
   ("পঞ্চম", ["৫ম", "পঞ্চম", "5ম"]),
   ("ষষ্ঠ", ["৬ষ্ঠ", "ষষ্ঠ", "6ষ্ঠ"]),
   ("সপ্তম", ["৭ম", "সপ্তম", "7ম"]),
   ("অষ্টম", ["৮ম", "অষ্টম", "8ম"]),
   ("নবম", ["৯ম", "নবম", "9ম"]),
   ("দশম", ["১০ম", "দশম", "10ম"])]

/-- The normalized form of the section/part marker word খণ্ড, i.e. the
literal `'খণড'` used at lines 298 and 306. -/
def sectionMarker : String := "খণড"

/-- Definition `is_section_duplicate` from `scraper.py` (lines 286–309): the heading's
normalized text must contain the marker `'খণড'`; then for some table entry
whose normalized ordinal word occurs in the heading's normalized text, some
normalized variant of that entry must occur in the title's normalized text,
which must itself contain the marker. -/
def is_section_duplicate (header_text lesson_title : String) : Bool :=
  if lesson_title = "" then false
  else
    let header_normalized := normalize_text header_text
    let title_normalized := normalize_text lesson_title
    if inStr sectionMarker header_normalized then
      section_mappings.any fun p =>
        inStr (normalize_text p.1) header_normalized &&
          p.2.any fun variant =>
            inStr (normalize_text variant) title_normalized &&
              inStr sectionMarker title_normalized
    else false

/-- Definition `is_title_duplicate` from `scraper.py` (lines 311–341): similarity of the
raw texts, or similarity of the extracted core titles, or containment between
the core titles when both are longer than 5. -/
def is_title_duplicate (header_text main_title : String) : Bool :=
  if main_title = "" || header_text = "" then false
  else
    texts_are_similar header_text main_title ||
    (let header_core := extract_core_title header_text
     let title_core := extract_core_title main_title
     (header_core != "") && (title_core != "") &&
       (texts_are_similar header_core title_core ||
        (decide (5 < header_core.length) && decide (5 < title_core.length) &&
          (inStr header_core title_core || inStr title_core header_core))))

/-- A block of the parsed document as observed by `remove_redundant_headers`:
a heading (`h1`–`h6`), a paragraph with the texts of its `<strong>` spans, or
any other top-level node (untouched by the function).  `inList` records
whether the block has an `ol`/`ul` ancestor (`find_parent(['ol', 'ul'])`);
all text fields hold the `get_text(strip=True)` text of the node. -/
inductive Block where
  | heading (inList : Bool) (text : String)
  | para (inList : Bool) (strongs : List String) (text : String)
  | raw (text : String)
deriving DecidableEq, Repr

/-- The condition under which `remove_redundant_headers` decomposes a heading
block (lines 346–368): not inside a list, nonempty text, and a title or
section duplicate of the reference title. -/
def headingRemovable (title : String) (b : Block) : Bool :=
  match b with
  | .heading inList text =>
    !inList && (text != "") && (is_title_duplicate text title || is_section_duplicate text title)
  | _ => false

/-- The per-`<strong>`-span removal test of the paragraph scan
(lines 384–411): a nonempty span that is a title duplicate removes the
paragraph only when the paragraph's normalized length is below 1.5 times the
span's normalized length (the float comparison `len_p < len_s * 1.5` is the
integer comparison `2 * len_p < 3 * len_s`); otherwise (`elif`) a span that
is a section duplicate removes the paragraph unconditionally. -/
def strongTrigger (title p_text : String) (strong_text : String) : Bool :=
  (strong_text != "") &&
    (if is_title_duplicate strong_text title then
      decide (2 * (normalize_text p_text).length < 3 * (normalize_text strong_text).length)
     else is_section_duplicate strong_text title)

/-- The condition under which the paragraph scan decomposes a paragraph
(lines 373–411): not inside a list, and some `<strong>` span triggers. -/
def paraRemovable (title : String) (b : Block) : Bool :=
  match b with
  | .para inList strongs text => !inList && strongs.any (strongTrigger title text)
  | _ => false

/-- Definition `remove_redundant_headers` from `scraper.py` (lines 259–416) on the block
list of the parsed document: with an empty document or an empty title the
document is returned unchanged; otherwise the heading pass removes every
matching heading and then the paragraph pass removes every matching
paragraph.  (Each block's removal test depends only on that block and the
title, so the two in-place `decompose` loops are the two filters.) -/
def remove_redundant_headers (doc : List Block) (title : String) : List Block :=
  if doc = [] then doc
  else if title = "" then doc
  else ((doc.filter fun b => !headingRemovable title b).filter fun b => !paraRemovable title b)

-- ## The content segmenter (`extract_dedication`, lines 418–553)

/-- A paragraph of the content as observed by `extract_dedication`: the text
of its first `<strong>` descendant (if any; `p.find('strong')`) and its own
`get_text(strip=True)` text. -/
structure Para where
  strong : Option String
  text : String
deriving DecidableEq, Repr

/-- Model of `re.search(w1 + r'\s*' + w2, s)` at one starting position: `w1`, then
any run of whitespace, then `w2` (neither word starts with whitespace, so
greedy `\s*` matching is equivalent to skipping all whitespace). -/
def wsSeqAt (w1 w2 : List Char) (t : List Char) : Bool :=
  w1.isPrefixOf t && w2.isPrefixOf ((t.drop w1.length).dropWhile isPySpace)

/-- Test `re.search(w1 + r'\s*' + w2, s) is not None`. -/
def searchSeq (w1 w2 : String) (s : String) : Bool :=
  s.data.tails.any (wsSeqAt w1.data w2.data)

/-- Test `re.search(r'^\s*' + w + r'\s*$', s) is not None`: the whole string is
optional whitespace, the word, optional whitespace. -/
def searchOnlyWord (w : String) (s : String) : Bool :=
  let l := s.data.dropWhile isPySpace
  w.data.isPrefixOf l && (l.drop w.data.length).all isPySpace

/-- Pattern `r'অনুবাদকের\s*উৎসর্গ'` (line 441). -/
def dedPat1 (s : String) : Bool := searchSeq "অনুবাদকের" "উৎসর্গ" s

/-- Pattern `r'লেখকের\s*উৎসর্গ'` (line 442). -/
def dedPat2 (s : String) : Bool := searchSeq "লেখকের" "উৎসর্গ" s

/-- Pattern `r'^\s*উৎসর্গ\s*$'` (line 443). -/
def dedPat3 (s : String) : Bool := searchOnlyWord "উৎসর্গ" s

/-- Pattern `r'কৃতজ্ঞতা'` (line 444). -/
def dedPat4 (s : String) : Bool := inStr "কৃতজ্ঞতা" s

/-- A paragraph whose first `<strong>` text matches one of the four
`dedication_patterns` — the test of the first scan (lines 452–460). -/
def isMarker4 (p : Para) : Bool :=
  match p.strong with
  | some st => dedPat1 st || dedPat2 st || dedPat3 st || dedPat4 st
  | none => false

/-- A paragraph whose first `<strong>` text matches one of the first three
`dedication_patterns` — the test of the second scan (lines 494–500). -/
def isMarker3 (p : Para) : Bool :=
  match p.strong with
  | some st => dedPat1 st || dedPat2 st || dedPat3 st
  | none => false

/-- The terminator test of the dedication-collection loop (lines 521–522):
`r'কৃতজ্ঞতা'` or `r'^\s*উৎসর্গ\s*$'`. -/
def isTerminator (st : String) : Bool := dedPat4 st || dedPat3 st

/-- The dot-separator test of the book-info loop (line 473):
`p_text in ['.', '।', '..', '...']`. -/
def isSep (t : String) : Bool := t == "." || t == "।" || t == ".." || t == "..."

/-- The book-info loop over the paragraphs before the dedication marker
(lines 465–483): every separator paragraph is discarded; before the first
separator every paragraph is moved to book info; after it every
non-separator paragraph is left in place.  Returns (book info, left in
place). -/
def bookInfoLoop : Bool → List Para → List Para × List Para
  | _, [] => ([], [])
  | found, p :: rest =>
    if isSep p.text then bookInfoLoop true rest
    else if !found then
      let r := bookInfoLoop false rest
      (p :: r.1, r.2)
    else
      let r := bookInfoLoop true rest
      (r.1, p :: r.2)

/-- The dedication-collection loop over the paragraphs after the marker
(lines 511–540): a paragraph with a `<strong>` span stops the walk if the
span matches a terminator pattern or is at most 50 characters, and is
collected otherwise; a paragraph without one stops the walk if its text
exceeds 200 characters, is silently dropped if its text is empty or `'.'` or
`'।'`, and is collected otherwise.  Returns (collected, left in place). -/
def collectDed : List Para → List Para × List Para
  | [] => ([], [])
  | q :: rest =>
    match q.strong with
    | some st =>
      if isTerminator st then ([], q :: rest)
      else if 50 < st.length then
        let r := collectDed rest
        (q :: r.1, r.2)
      else ([], q :: rest)
    | none =>
      if 200 < q.text.length then ([], q :: rest)
      else if q.text != "" && q.text != "." && q.text != "।" then
        let r := collectDed rest
        (q :: r.1, r.2)
      else collectDed rest

/-- Split a paragraph list at the first paragraph matching `isMarker3`. -/
def splitAtMarker3 : List Para → Option (List Para × Para × List Para)
  | [] => none
  | p :: rest =>
    if isMarker3 p then some ([], p, rest)
    else
      match splitAtMarker3 rest with
      | some (pre, m, suf) => some (p :: pre, m, suf)
      | none => none

/-- The book-info phase of `extract_dedication` (lines 451–487): find the
first paragraph matching any of the four dedication patterns; if it exists
at an index `d > 0`, run the book-info loop over the paragraphs before it.
Returns (book info, remaining paragraph sequence). -/
def dedicationPhase1 (ps : List Para) : List Para × List Para :=
  match ps.findIdx? isMarker4 with
  | some d =>
    if 0 < d then
      let r := bookInfoLoop false (ps.take d)
      (r.1, r.2 ++ ps.drop d)
    else ([], ps)
  | none => ([], ps)

/-- The dedication phase of `extract_dedication` (lines 489–549) on the
refetched paragraph list: find the first paragraph matching one of the first
three patterns, collect the following run, and remove the collected
paragraphs and the marker.  Returns (dedication, remaining body). -/
def dedicationPhase2 (qs : List Para) : List Para × List Para :=
  match splitAtMarker3 qs with
  | some (pre, m, suf) =>
    let r := collectDed suf
    (m :: r.1, pre ++ r.2)
  | none => ([], qs)

/-- Definition `extract_dedication` from `scraper.py` (lines 418–553) on the paragraph
list of the content: returns (book info, dedication, body).  The Python
function returns the three parts as serialized markup; since serialization
of distinct paragraph nodes is injective, the block-level content is modelled
by the three lists of paragraphs. -/
def extract_dedication (ps : List Para) : List Para × List Para × List Para :=
  let r1 := dedicationPhase1 ps
  let r2 := dedicationPhase2 r1.2
  (r1.1, r2.1, r2.2)

-- ## Definitions written from the specification text, for comparison

/-- The characterization of `is_section_duplicate` as the specification words
it: both normalized texts contain the marker word, and for some table entry
some single normalized variant occurs in the heading's normalized text *and*
in the title's normalized text. -/
def is_section_duplicate_claimed (header_text lesson_title : String) : Bool :=
  let hn := normalize_text header_text
  let tn := normalize_text lesson_title
  inStr sectionMarker hn && inStr sectionMarker tn &&
    section_mappings.any fun p =>
      p.2.any fun v => inStr (normalize_text v) hn && inStr (normalize_text v) tn

/-- The corrected characterization of `is_section_duplicate`: both normalized
texts contain the marker word, and for some table entry the normalized
ordinal word occurs in the heading's normalized text while some normalized
variant of that entry occurs in the title's normalized text. -/
def is_section_duplicate_spec (header_text lesson_title : String) : Bool :=
  let hn := normalize_text header_text
  let tn := normalize_text lesson_title
  inStr sectionMarker hn && inStr sectionMarker tn &&
    section_mappings.any fun p =>
      inStr (normalize_text p.1) hn && p.2.any fun v => inStr (normalize_text v) tn

/-- The candidate-list structure claimed for `normalize_bengali_numbers`:
base normalized form first, then the digit-glyph substitution when it changed
something, then one candidate per matching ordinal-word entry. -/
def normalize_bengali_numbers_spec (text : String) : List String :=
  let normalized := normalize_text text
  let english := bengali_to_english.foldl (fun s p => pyReplace s p.1 p.2) normalized
  [normalized] ++ (if english ≠ normalized then [english] else []) ++
    word_to_digit.filterMap fun p =>
      if inStr (normalize_text p.1) normalized then
        some (pyReplace normalized (normalize_text p.1) (normalize_text p.2))
      else none

/-- A paragraph that `extract_dedication` may silently discard: a
dot-separator paragraph or an empty one (the dedication loop drops exactly
the texts `''`, `'.'` and `'।'`, the book-info loop the four separators). -/
def discardable (p : Para) : Bool := isSep p.text || p.text == ""

/-- A five-paragraph document: book info, a dot separator, a stray paragraph
between the separator and the dedication marker, the marker, and a trailing
short paragraph (which the dedication loop collects). -/
def dedicationExample : List Para :=
  [Para.mk none "ক", Para.mk none ".", Para.mk none "খ",
   Para.mk (some "উৎসর্গ") "উৎসর্গ", Para.mk none "গ"]

-- ## Helper lemmas

theorem charNFKC_of_not_word {c : Char} (h : isWordChar c = false) : charNFKC c = [c] := by
  unfold charNFKC
  split_ifs with h1 h2 h3
  · exfalso; simp only [isWordChar, decide_eq_false_iff_not] at h; omega
  · exfalso; simp only [isWordChar, decide_eq_false_iff_not] at h; omega
  · exfalso; simp only [isWordChar, decide_eq_false_iff_not] at h; omega
  · rfl

theorem pyLowerChar_of_not_word {c : Char} (h : isWordChar c = false) : pyLowerChar c = c := by
  unfold pyLowerChar
  split_ifs with h1
  · exfalso; simp only [isWordChar, decide_eq_false_iff_not] at h; omega
  · rfl

theorem filtered_nil_of_symbols {l : List Char}
    (h : ∀ c ∈ l, isWordChar c = false ∧ isPySpace c = false) :
    ((l.flatMap charNFKC).map pyLowerChar).filter (fun c => isWordChar c || isPySpace c) = [] := by
  induction l with
  | nil => rfl
  | cons c t ih =>
    obtain ⟨hw, hs⟩ := h c (by simp)
    have ht := ih fun d hd => h d (by simp [hd])
    simp [charNFKC_of_not_word hw, pyLowerChar_of_not_word hw, hw, hs, ht]

theorem any_and_const {α : Type} (l : List α) (f : α → Bool) (b : Bool) :
    (l.any fun x => f x && b) = (l.any f && b) := by
  induction l with
  | nil => simp
  | cons a t ih => cases b <;> simp_all

theorem foldl_snoc_filterMap {α β : Type} (l : List α) (c : α → Bool) (f : α → β)
    (init : List β) :
    l.foldl (fun vs p => if c p then vs ++ [f p] else vs) init =
      init ++ l.filterMap fun p => if c p then some (f p) else none := by
  induction l generalizing init with
  | nil => simp
  | cons a t ih =>
    rw [List.foldl_cons, ih]
    by_cases h : c a = true <;> simp [h, List.append_assoc]

-- ## C5: `remove_redundant_headers` is idempotent

/-- C5: for every document and every reference title, running
`remove_redundant_headers` a second time with the same title removes nothing
further — each block's removal test depends only on that block and the title,
so the two passes are filters and filtering is idempotent. -/
theorem remove_redundant_headers_idem (doc : List Block) (title : String) :
    remove_redundant_headers (remove_redundant_headers doc title) title =
      remove_redundant_headers doc title := by
  unfold remove_redundant_headers
  by_cases hd : doc = []
  · simp [hd]
  · simp only [if_neg hd]
    by_cases ht : title = ""
    · simp [ht]
    · simp only [if_neg ht]
      set r := (doc.filter fun b => !headingRemovable title b).filter
        (fun b => !paraRemovable title b) with hr
      by_cases hrr : r = []
      · simp [hrr]
      · simp only [if_neg hrr, if_neg ht]
        have h1 : r.filter (fun b => !headingRemovable title b) = r :=
          List.filter_eq_self.mpr fun b hb => (List.mem_filter.mp (List.mem_filter.mp hb).1).2
        have h2 : ∀ l : List Block, l = r → l.filter (fun b => !paraRemovable title b) = r := by
          intro l hl
          subst hl
          exact List.filter_eq_self.mpr fun b hb => (List.mem_filter.mp hb).2
        rw [h1, h2 r rfl]

-- ## C10: entirely symbolic fragments are always similar

/-- C10: two strings whose normalized forms are both empty are judged similar
by the exact-equality branch of `texts_are_similar`. -/
theorem texts_are_similar_of_norm_empty (a b : String)
    (h1 : normalize_text a = "") (h2 : normalize_text b = "") :
    texts_are_similar a b = true := by
  unfold texts_are_similar
  simp [h1, h2]

/-- Witness for C10 at two concrete symbol-only strings. -/
theorem texts_are_similar_of_norm_empty_witness :
    normalize_text "..." = "" ∧ normalize_text "।।" = "" ∧
      texts_are_similar "..." "।।" = true :=
  ⟨by decide, by decide, texts_are_similar_of_norm_empty "..." "।।" (by decide) (by decide)⟩

-- ## C8: totality of `normalize_text`

/-- C8: `normalize_text` is total by construction; the empty string and the
null input map to the empty string, and so does every string all of whose
characters are symbols/punctuation (neither word characters nor whitespace). -/
theorem normalize_text_total :
    normalize_text "" = "" ∧ normalize_text_opt none = "" ∧
      ∀ s : String, (∀ c ∈ s.data, isWordChar c = false ∧ isPySpace c = false) →
        normalize_text s = "" := by
  refine ⟨rfl, rfl, fun s h => ?_⟩
  unfold normalize_text
  split
  · rfl
  · show (⟨normList s.data⟩ : String) = ""
    have hnil : normList s.data = [] := by
      unfold normList
      rw [filtered_nil_of_symbols h]
      rfl
    rw [hnil]

/-- Witness for C8 at a concrete symbols-only string. -/
theorem normalize_text_total_witness : normalize_text "?!।—" = "" :=
  normalize_text_total.2.2 "?!।—" (by decide)

-- ## C2: characterization of `is_section_duplicate`

/-- C2 counterexample: on the code's own motivating example — heading
"প্রথম খণ্ড", title "১ম খণ্ড" — `is_section_duplicate` returns `true`, but the
claimed characterization is `false`: no single variant of the ordinal entry
occurs in both normalized texts (the heading contains only the word form
"পরথম", the title only the digit form "১ম"). -/
theorem is_section_duplicate_claim_fails :
    is_section_duplicate "প্রথম খণ্ড" "১ম খণ্ড" = true ∧
      is_section_duplicate_claimed "প্রথম খণ্ড" "১ম খণ্ড" = false := by
  constructor
  · decide
  · decide

/-- C2 amended: `is_section_duplicate heading title` is true iff both
normalized texts contain the marker word and, for some ordinal-word entry,
the entry's normalized word occurs in the heading's normalized text and some
normalized variant of the entry occurs in the title's normalized text. -/
theorem is_section_duplicate_characterization (h t : String) :
    is_section_duplicate h t = is_section_duplicate_spec h t := by
  unfold is_section_duplicate is_section_duplicate_spec
  by_cases ht : t = ""
  · subst ht
    have hm : inStr sectionMarker (normalize_text "") = false := by decide
    simp [hm]
  · simp only [if_neg ht]
    by_cases hm : inStr sectionMarker (normalize_text h) = true
    · simp only [hm, if_true, Bool.true_and]
      rw [Bool.eq_iff_iff]
      simp only [List.any_eq_true, Bool.and_eq_true]
      constructor
      · rintro ⟨p, hp, hw, v, hv, hvt, hmt⟩
        exact ⟨hmt, p, hp, hw, v, hv, hvt⟩
      · rintro ⟨hmt, p, hp, hw, v, hv, hvt⟩
        exact ⟨p, hp, hw, v, hv, hvt, hmt⟩
    · simp only [Bool.not_eq_true] at hm
      simp [hm]

-- ## C9: structure of `normalize_bengali_numbers`

/-- C9: `normalize_bengali_numbers` returns exactly the claimed candidate
list — the normalized text first, then (only when a digit substitution
changed something) the ASCII-digit form, then one candidate per ordinal-word
entry whose normalized word occurs in the normalized text, in table order.
(The embedding is purely functional, so the tables are never mutated.) -/
theorem normalize_bengali_numbers_structure (text : String) :
    normalize_bengali_numbers text = normalize_bengali_numbers_spec text := by
  by_cases h0 : text = ""
  · subst h0
    decide
  · unfold normalize_bengali_numbers normalize_bengali_numbers_spec
    simp only [if_neg h0]
    rw [foldl_snoc_filterMap]
    by_cases he : bengali_to_english.foldl (fun s p => pyReplace s p.1 p.2)
        (normalize_text text) = normalize_text text
    · simp [he]
    · simp [he]

-- ## C3: the 1.5× length gate and section duplicates

/-- Pointwise form of the per-span removal test: a nonempty span triggers
removal iff it is a title duplicate passing the 1.5× gate, or it is not a
title duplicate but is a section duplicate (no gate). -/
theorem strongTrigger_iff (title txt st : String) :
    strongTrigger title txt st = true ↔
      st ≠ "" ∧
        ((is_title_duplicate st title = true ∧
            2 * (normalize_text txt).length < 3 * (normalize_text st).length) ∨
         (is_title_duplicate st title = false ∧ is_section_duplicate st title = true)) := by
  unfold strongTrigger
  by_cases hd : is_title_duplicate st title = true
  · simp [hd]
  · simp only [Bool.not_eq_true] at hd
    simp [hd]

/-- C3 counterexample: the emphasized span "প্রথম খণ্ড কথা কথা কথা" is a
section duplicate (not a title duplicate) of the title "১ম খণ্ড", the
paragraph text is far longer than 1.5× the span (normalized lengths 46
versus 17), yet `remove_redundant_headers` removes the whole paragraph —
the 1.5× gate is applied only in the title-duplicate branch, not to section
duplicates. -/
theorem section_duplicate_removal_ignores_gate :
    is_section_duplicate "প্রথম খণ্ড কথা কথা কথা" "১ম খণ্ড" = true ∧
    is_title_duplicate "প্রথম খণ্ড কথা কথা কথা" "১ম খণ্ড" = false ∧
    ¬(2 * (normalize_text
        "প্রথম খণ্ড কথা কথা কথা কককককককককককককককককককককককককককক").length <
      3 * (normalize_text "প্রথম খণ্ড কথা কথা কথা").length) ∧
    remove_redundant_headers
      [Block.para false ["প্রথম খণ্ড কথা কথা কথা"]
        "প্রথম খণ্ড কথা কথা কথা কককককককককককককককককককককককককককক"]
      "১ম খণ্ড" = [] := by
  refine ⟨by decide, by decide, by decide, by decide⟩

/-- C3 amended: for a non-list paragraph, `remove_redundant_headers` removes
it exactly when some nonempty emphasized span is a title duplicate whose
paragraph passes the 1.5× length gate, or is a section duplicate (and not a
title duplicate) — the gate applies only to title duplicates. -/
theorem paragraph_removal_condition (ss : List String) (txt title : String)
    (ht : title ≠ "") :
    remove_redundant_headers [Block.para false ss txt] title = [] ↔
      ∃ st ∈ ss, st ≠ "" ∧
        ((is_title_duplicate st title = true ∧
            2 * (normalize_text txt).length < 3 * (normalize_text st).length) ∨
         (is_title_duplicate st title = false ∧ is_section_duplicate st title = true)) := by
  have key : remove_redundant_headers [Block.para false ss txt] title =
      if ss.any (strongTrigger title txt) = true then [] else [Block.para false ss txt] := by
    unfold remove_redundant_headers paraRemovable headingRemovable
    by_cases hp : ss.any (strongTrigger title txt) = true <;> simp [ht, hp]
  rw [key]
  by_cases hp : ss.any (strongTrigger title txt) = true
  · simp only [if_pos hp, true_iff]
    obtain ⟨st, hst, htr⟩ := List.any_eq_true.mp hp
    exact ⟨st, hst, (strongTrigger_iff title txt st).mp htr⟩
  · simp only [if_neg hp]
    constructor
    · intro hfalse
      exact absurd hfalse (by simp)
    · rintro ⟨st, hst, hcond⟩
      exact absurd (List.any_eq_true.mpr
        ⟨st, hst, (strongTrigger_iff title txt st).mpr ⟨hcond.1, hcond.2⟩⟩) hp

/-- Witness for C3-amended: the amended condition holds at the
counterexample's input, and the paragraph is indeed removed. -/
theorem paragraph_removal_condition_witness :
    remove_redundant_headers
      [Block.para false ["প্রথম খণ্ড কথা কথা কথা"]
        "প্রথম খণ্ড কথা কথা কথা কককককককককককককককককককককককককককক"]
      "১ম খণ্ড" = [] :=
  (paragraph_removal_condition ["প্রথম খণ্ড কথা কথা কথা"]
      "প্রথম খণ্ড কথা কথা কথা কককককককককককককককককককককককককককক" "১ম খণ্ড"
      (by decide)).mpr
    ⟨"প্রথম খণ্ড কথা কথা কথা", by decide, by decide, Or.inr ⟨by decide, by decide⟩⟩

-- ## C1: the book-info phase without a separator

theorem bookInfoLoop_no_sep (l : List Para) (h : ∀ p ∈ l, isSep p.text = false) :
    bookInfoLoop false l = (l, []) := by
  induction l with
  | nil => rfl
  | cons p t ih =>
    have hp := h p (by simp)
    have ht := ih fun q hq => h q (by simp [hq])
    unfold bookInfoLoop
    simp [hp, ht]

/-- C1 counterexample: with the two paragraphs [plain "ক", marker "উৎসর্গ"] —
dedication marker at index 1 > 0, no separator anywhere in the prefix — the
code moves the whole prefix into book info and leaves the body empty, while
the claim asserts the book-info output is empty and the prefix stays in the
body. -/
theorem bookinfo_consumed_without_separator :
    List.findIdx? isMarker4 [Para.mk none "ক", Para.mk (some "উৎসর্গ") "উৎসর্গ"] = some 1 ∧
    isSep (Para.mk none "ক").text = false ∧
    extract_dedication [Para.mk none "ক", Para.mk (some "উৎসর্গ") "উৎসর্গ"] =
      ([Para.mk none "ক"], [Para.mk (some "উৎসর্গ") "উৎসর্গ"], []) := by
  refine ⟨by decide, by decide, by decide⟩

/-- C1 amended: when the first dedication marker sits at index `d > 0` and no
paragraph before it is a lone separator, the book-info phase consumes the
*entire* prefix: the book-info output is exactly the blocks `[0, d)` (none of
them is left in the body). -/
theorem bookinfo_takes_whole_prefix (ps : List Para) (d : Nat)
    (hfind : ps.findIdx? isMarker4 = some d) (hd : 0 < d)
    (hsep : ∀ p ∈ ps.take d, isSep p.text = false) :
    (extract_dedication ps).1 = ps.take d := by
  show (dedicationPhase1 ps).1 = ps.take d
  unfold dedicationPhase1
  rw [hfind]
  simp [if_pos hd, bookInfoLoop_no_sep _ hsep]

/-- Witness for C1-amended at the counterexample's concrete input. -/
theorem bookinfo_takes_whole_prefix_witness :
    (extract_dedication [Para.mk none "ক", Para.mk (some "উৎসর্গ") "উৎসর্গ"]).1 =
      List.take 1 [Para.mk none "ক", Para.mk (some "উৎসর্গ") "উৎসর্গ"] :=
  bookinfo_takes_whole_prefix _ 1 (by decide) (by decide) (by decide)

-- ## C4: partition of the input paragraphs

theorem bookInfoLoop_true (l : List Para) :
    bookInfoLoop true l = ([], l.filter fun p => !isSep p.text) := by
  induction l with
  | nil => rfl
  | cons p t ih =>
    unfold bookInfoLoop
    by_cases hs : isSep p.text = true <;> simp [hs, ih]

theorem bookInfoLoop_false_append (l : List Para) :
    (bookInfoLoop false l).1 ++ (bookInfoLoop false l).2 =
      l.filter fun p => !isSep p.text := by
  induction l with
  | nil => rfl
  | cons p t ih =>
    unfold bookInfoLoop
    by_cases hs : isSep p.text = true
    · simp [hs, bookInfoLoop_true]
    · simp [hs, ih]

theorem splitAtMarker3_eq : ∀ {l : List Para} {pre : List Para} {m : Para} {suf : List Para},
    splitAtMarker3 l = some (pre, m, suf) → l = pre ++ m :: suf := by
  intro l
  induction l with
  | nil => intro pre m suf h; simp [splitAtMarker3] at h
  | cons p rest ih =>
    intro pre m suf h
    unfold splitAtMarker3 at h
    by_cases hm : isMarker3 p = true
    · simp only [hm, if_true, Option.some.injEq, Prod.mk.injEq] at h
      obtain ⟨h1, h2, h3⟩ := h
      subst h1; subst h2; subst h3
      rfl
    · simp only [hm, Bool.false_eq_true, if_false] at h
      cases hsp : splitAtMarker3 rest with
      | some triple =>
        obtain ⟨pre', m', suf'⟩ := triple
        rw [hsp] at h
        simp only [Option.some.injEq, Prod.mk.injEq] at h
        obtain ⟨h1, h2, h3⟩ := h
        subst h1; subst h2; subst h3
        simpa using ih hsp
      | none =>
        rw [hsp] at h
        simp at h

theorem collectDed_spec (l : List Para) :
    ∃ disc : List Para,
      l.Perm ((collectDed l).1 ++ ((collectDed l).2 ++ disc)) ∧
      (∀ p ∈ disc, p.text = "" ∨ p.text = "." ∨ p.text = "।") ∧
      (collectDed l).1 <+ l ∧ (collectDed l).2 <+ l := by
  induction l with
  | nil =>
    refine ⟨[], ?_, by simp, ?_, ?_⟩ <;> simp [collectDed]
  | cons q rest ih =>
    obtain ⟨disc, hperm, hdisc, hded, hkept⟩ := ih
    cases hs : q.strong with
    | some st =>
      by_cases hterm : isTerminator st = true
      · have hval : collectDed (q :: rest) = ([], q :: rest) := by
          conv_lhs => unfold collectDed
          rw [hs]; simp [hterm]
        refine ⟨[], ?_, by simp, ?_, ?_⟩ <;> simp [hval]
      · by_cases hlen : 50 < st.length
        · have hval : collectDed (q :: rest) =
              (q :: (collectDed rest).1, (collectDed rest).2) := by
            conv_lhs => unfold collectDed
            rw [hs]; simp [hterm, hlen]
          refine ⟨disc, ?_, hdisc, ?_, ?_⟩
          · rw [hval]
            simpa using hperm.cons q
          · rw [hval]
            exact hded.cons₂ q
          · rw [hval]
            exact hkept.cons q
        · have hval : collectDed (q :: rest) = ([], q :: rest) := by
            conv_lhs => unfold collectDed
            rw [hs]; simp [hterm, hlen]
          refine ⟨[], ?_, by simp, ?_, ?_⟩ <;> simp [hval]
    | none =>
      by_cases hlen : 200 < q.text.length
      · have hval : collectDed (q :: rest) = ([], q :: rest) := by
          conv_lhs => unfold collectDed
          rw [hs]; simp [hlen]
        refine ⟨[], ?_, by simp, ?_, ?_⟩ <;> simp [hval]
      · by_cases htext : (q.text != "" && q.text != "." && q.text != "।") = true
        · have hval : collectDed (q :: rest) =
              (q :: (collectDed rest).1, (collectDed rest).2) := by
            conv_lhs => unfold collectDed
            rw [hs]; simp [hlen, htext]
          refine ⟨disc, ?_, hdisc, ?_, ?_⟩
          · rw [hval]
            simpa using hperm.cons q
          · rw [hval]
            exact hded.cons₂ q
          · rw [hval]
            exact hkept.cons q
        · have hval : collectDed (q :: rest) = collectDed rest := by
            conv_lhs => unfold collectDed
            rw [hs]; simp [hlen, htext]
          have hq : q.text = "" ∨ q.text = "." ∨ q.text = "।" := by
            simp only [Bool.and_eq_true, bne_iff_ne, not_and_or, Bool.not_eq_true] at htext
            tauto
          refine ⟨q :: disc, ?_, ?_, ?_, ?_⟩
          · rw [hval]
            have h1 : q :: rest ~
                q :: ((collectDed rest).1 ++ ((collectDed rest).2 ++ disc)) := hperm.cons q
            have h2 : ((collectDed rest).1 ++ (collectDed rest).2) ++ q :: disc ~
                q :: (((collectDed rest).1 ++ (collectDed rest).2) ++ disc) :=
              List.perm_middle
            refine h1.trans ?_
            have h3 := h2.symm
            rw [List.append_assoc, List.append_assoc] at h3
            exact h3
          · intro p hp
            rcases List.mem_cons.mp hp with h | h
            · subst h; exact hq
            · exact hdisc p h
          · rw [hval]
            exact hded.cons q
          · rw [hval]
            exact hkept.cons q

theorem dedicationPhase1_spec (ps : List Para) :
    ∃ disc : List Para,
      ps.Perm ((dedicationPhase1 ps).1 ++ ((dedicationPhase1 ps).2 ++ disc)) ∧
      (∀ p ∈ disc, isSep p.text = true) ∧
      (dedicationPhase1 ps).1 <+ ps ∧ (dedicationPhase1 ps).2 <+ ps := by
  unfold dedicationPhase1
  cases hf : ps.findIdx? isMarker4 with
  | none =>
    refine ⟨[], ?_, by simp, ?_, ?_⟩ <;> simp
  | some d =>
    by_cases hd : 0 < d
    · simp only [if_pos hd]
      have h1 := bookInfoLoop_false_append (ps.take d)
      have hbi1 : (bookInfoLoop false (ps.take d)).1 <+ ps.take d := by
        have h := List.sublist_append_left (bookInfoLoop false (ps.take d)).1
          (bookInfoLoop false (ps.take d)).2
        rw [h1] at h
        exact h.trans (List.filter_sublist _)
      have hk1 : (bookInfoLoop false (ps.take d)).2 <+ ps.take d := by
        have h := List.sublist_append_right (bookInfoLoop false (ps.take d)).1
          (bookInfoLoop false (ps.take d)).2
        rw [h1] at h
        exact h.trans (List.filter_sublist _)
      refine ⟨(ps.take d).filter (fun p => isSep p.text), ?_, ?_, ?_, ?_⟩
      · have h2 := (List.filter_append_perm (fun p => !isSep p.text) (ps.take d)).symm
        rw [← h1] at h2
        have h3 : ps ~ ((bookInfoLoop false (ps.take d)).1 ++ (bookInfoLoop false (ps.take d)).2 ++
            (ps.take d).filter (fun x => !!isSep x.text)) ++ ps.drop d := by
          conv_lhs => rw [← List.take_append_drop d ps]
          exact List.Perm.append_right (ps.drop d) h2
        refine h3.trans ?_
        have hfe : (ps.take d).filter (fun x => !!isSep x.text) =
            (ps.take d).filter (fun x => isSep x.text) := by
          simp
        rw [hfe]
        simp only [List.append_assoc]
        exact List.Perm.append_left _ (List.Perm.append_left _ List.perm_append_comm)
      · intro p hp
        exact (List.mem_filter.mp hp).2
      · exact hbi1.trans (List.take_sublist d ps)
      · have h := List.Sublist.append hk1 (List.Sublist.refl (ps.drop d))
        rwa [List.take_append_drop] at h
    · simp only [if_neg hd]
      refine ⟨[], ?_, by simp, ?_, ?_⟩ <;> simp

theorem dedicationPhase2_spec (qs : List Para) :
    ∃ disc : List Para,
      qs.Perm ((dedicationPhase2 qs).1 ++ ((dedicationPhase2 qs).2 ++ disc)) ∧
      (∀ p ∈ disc, discardable p = true) ∧
      (dedicationPhase2 qs).1 <+ qs ∧ (dedicationPhase2 qs).2 <+ qs := by
  unfold dedicationPhase2
  cases hsp : splitAtMarker3 qs with
  | none =>
    refine ⟨[], ?_, by simp, ?_, ?_⟩ <;> simp
  | some triple =>
    obtain ⟨pre, m, suf⟩ := triple
    have heq : qs = pre ++ m :: suf := splitAtMarker3_eq hsp
    obtain ⟨disc, hperm, hdisc, hded, hkept⟩ := collectDed_spec suf
    refine ⟨disc, ?_, ?_, ?_, ?_⟩
    · rw [heq]
      calc pre ++ m :: suf ~ m :: (pre ++ suf) := List.perm_middle
        _ ~ m :: (pre ++ ((collectDed suf).1 ++ ((collectDed suf).2 ++ disc))) :=
            (List.Perm.append_left pre hperm).cons m
        _ ~ m :: ((collectDed suf).1 ++ (pre ++ ((collectDed suf).2 ++ disc))) := by
            refine List.Perm.cons m ?_
            exact List.perm_append_comm_assoc pre (collectDed suf).1 ((collectDed suf).2 ++ disc)
        _ = (m :: (collectDed suf).1) ++ ((pre ++ (collectDed suf).2) ++ disc) := by
            simp [List.append_assoc]
    · intro p hp
      have h := hdisc p hp
      unfold discardable isSep
      rcases h with h | h | h <;> simp [h]
    · rw [heq]
      exact (hded.cons₂ m).trans (List.sublist_append_right pre (m :: suf))
    · rw [heq]
      exact List.Sublist.append (List.Sublist.refl pre) (hkept.cons m)

/-- C4 counterexample: on `dedicationExample` the stray paragraph "খ" (after
the separator, before the marker) stays in the body, while the dedication —
later in the input — precedes it in the concatenated output, so
bookInfo ++ dedication ++ body is *not* a subsequence of the input. -/
theorem concatenation_not_subsequence :
    ¬((extract_dedication dedicationExample).1 ++
        ((extract_dedication dedicationExample).2.1 ++
          (extract_dedication dedicationExample).2.2) <+ dedicationExample) := by
  decide

/-- C4 amended: every input paragraph ends up in exactly one of bookInfo,
dedication, or body, except discarded separator/empty paragraphs (the input
is a permutation of the three outputs plus a discardable remainder); and each
of the three outputs individually is a subsequence of the input in original
relative order, with no block duplicated or invented. -/
theorem extract_dedication_partition (ps : List Para) :
    ∃ disc : List Para,
      ps.Perm ((extract_dedication ps).1 ++ ((extract_dedication ps).2.1 ++
        ((extract_dedication ps).2.2 ++ disc))) ∧
      (∀ p ∈ disc, discardable p = true) ∧
      (extract_dedication ps).1 <+ ps ∧
      (extract_dedication ps).2.1 <+ ps ∧ (extract_dedication ps).2.2 <+ ps := by
  obtain ⟨d1, hp1, hd1, hbi, hqs⟩ := dedicationPhase1_spec ps
  obtain ⟨d2, hp2, hd2, hded, hbody⟩ := dedicationPhase2_spec (dedicationPhase1 ps).2
  refine ⟨d2 ++ d1, ?_, ?_, hbi, hded.trans hqs, hbody.trans hqs⟩
  · calc ps ~ (dedicationPhase1 ps).1 ++ ((dedicationPhase1 ps).2 ++ d1) := hp1
      _ ~ (dedicationPhase1 ps).1 ++
            (((dedicationPhase2 (dedicationPhase1 ps).2).1 ++
              ((dedicationPhase2 (dedicationPhase1 ps).2).2 ++ d2)) ++ d1) :=
          List.Perm.append_left _ (List.Perm.append_right d1 hp2)
      _ = (dedicationPhase1 ps).1 ++ ((dedicationPhase2 (dedicationPhase1 ps).2).1 ++
            ((dedicationPhase2 (dedicationPhase1 ps).2).2 ++ (d2 ++ d1))) := by
          simp [List.append_assoc]
  · intro p hp
    rcases List.mem_append.mp hp with h | h
    · exact hd2 p h
    · unfold discardable
      simp [hd1 p h]

-- ## C6: symmetry of `texts_are_similar`

/-- C6: every check of `texts_are_similar` is symmetric in its two arguments
(the exact, substring, core-title and numeral-variant checks by symmetry of
equality and two-sided containment, the prefix-stripping check because both
directions are tried), so the function is commutative. -/
theorem texts_are_similar_comm (a b : String) :
    texts_are_similar a b = texts_are_similar b a := by
  unfold texts_are_similar
  rw [Bool.eq_iff_iff]
  simp only [Bool.or_eq_true, Bool.and_eq_true, List.any_eq_true, beq_iff_eq, bne_iff_ne,
    decide_eq_true_eq]
  constructor <;>
    · rintro (((h | h) | h) | h)
      · refine Or.inl (Or.inl (Or.inl ?_))
        rcases h with he | ⟨⟨l1, l2⟩, hi⟩
        · exact Or.inl he.symm
        · exact Or.inr ⟨⟨l2, l1⟩, hi.symm⟩
      · refine Or.inl (Or.inl (Or.inr ?_))
        obtain ⟨⟨⟨⟨h1, h2⟩, h3⟩, h4⟩, h5⟩ := h
        refine ⟨⟨⟨⟨h2, h1⟩, h4⟩, h3⟩, ?_⟩
        rcases h5 with (he | hi) | hi2
        · exact Or.inl (Or.inl he.symm)
        · exact Or.inr hi
        · exact Or.inl (Or.inr hi2)
      · refine Or.inl (Or.inr ?_)
        obtain ⟨x, hx, y, hy, hc⟩ := h
        refine ⟨y, hy, x, hx, ?_⟩
        rcases hc with he | ⟨⟨l1, l2⟩, hi⟩
        · exact Or.inl he.symm
        · exact Or.inr ⟨⟨l2, l1⟩, hi.symm⟩
      · refine Or.inr ?_
        obtain ⟨p, hp, hc⟩ := h
        exact ⟨p, hp, hc.symm⟩

-- ## C7: idempotence of `normalize_text`

theorem toNat_ofNat_valid {n : Nat} (h : n < 0xD800) : (Char.ofNat n).toNat = n := by
  unfold Char.ofNat
  rw [dif_pos (Or.inl h)]
  rfl

theorem charNFKC_out_fixed {c d : Char} (hd : d ∈ charNFKC c) : charNFKC d = [d] := by
  unfold charNFKC at hd
  split_ifs at hd with h1 h2 h3
  · rcases List.mem_cons.mp hd with h | h
    · subst h; decide
    · simp only [List.mem_singleton] at h; subst h; decide
  · rcases List.mem_cons.mp hd with h | h
    · subst h; decide
    · simp only [List.mem_singleton] at h; subst h; decide
  · rcases List.mem_cons.mp hd with h | h
    · subst h; decide
    · simp only [List.mem_singleton] at h; subst h; decide
  · simp only [List.mem_singleton] at hd
    subst hd
    unfold charNFKC
    rw [if_neg h1, if_neg h2, if_neg h3]

theorem pyLowerChar_idem (c : Char) : pyLowerChar (pyLowerChar c) = pyLowerChar c := by
  by_cases h : 0x41 ≤ c.toNat ∧ c.toNat ≤ 0x5A
  · have hc : pyLowerChar c = Char.ofNat (c.toNat + 0x20) := by
      unfold pyLowerChar
      rw [if_pos h]
    have hval : (Char.ofNat (c.toNat + 0x20)).toNat = c.toNat + 0x20 :=
      toNat_ofNat_valid (by omega)
    rw [hc]
    unfold pyLowerChar
    rw [if_neg (by rw [hval]; omega)]
  · have hc : pyLowerChar c = c := by
      unfold pyLowerChar
      rw [if_neg h]
    rw [hc, hc]

theorem charNFKC_lower_fixed {d : Char} (h : charNFKC d = [d]) :
    charNFKC (pyLowerChar d) = [pyLowerChar d] := by
  by_cases h1 : 0x41 ≤ d.toNat ∧ d.toNat ≤ 0x5A
  · have hc : pyLowerChar d = Char.ofNat (d.toNat + 0x20) := by
      unfold pyLowerChar
      rw [if_pos h1]
    have hval : (Char.ofNat (d.toNat + 0x20)).toNat = d.toNat + 0x20 :=
      toNat_ofNat_valid (by omega)
    rw [hc]
    unfold charNFKC
    rw [if_neg (by rw [hval]; omega), if_neg (by rw [hval]; omega),
      if_neg (by rw [hval]; omega)]
  · have hc : pyLowerChar d = d := by
      unfold pyLowerChar
      rw [if_neg h1]
    rw [hc]
    exact h

theorem wordsAux_append : ∀ (w l cur : List Char), (∀ c ∈ w, isPySpace c = false) →
    wordsAux (w ++ l) cur = wordsAux l (w.reverse ++ cur) := by
  intro w
  induction w with
  | nil => intro l cur _; simp
  | cons c w' ih =>
    intro l cur hw
    have hc := hw c (by simp)
    have hw' : ∀ d ∈ w', isPySpace d = false := fun d hd => hw d (by simp [hd])
    show wordsAux (c :: (w' ++ l)) cur = wordsAux l ((c :: w').reverse ++ cur)
    have hstep : wordsAux (c :: (w' ++ l)) cur = wordsAux (w' ++ l) (c :: cur) := by
      conv_lhs => unfold wordsAux
      rw [hc]
      simp
    rw [hstep, ih l (c :: cur) hw']
    congr 1
    simp [List.append_assoc]

theorem wordsAux_words_ok : ∀ (l cur : List Char), (∀ c ∈ cur, isPySpace c = false) →
    ∀ w ∈ wordsAux l cur, w ≠ [] ∧ ∀ c ∈ w, isPySpace c = false := by
  intro l
  induction l with
  | nil =>
    intro cur hcur w hw
    unfold wordsAux at hw
    split_ifs at hw with h
    · simp at hw
    · simp only [List.mem_singleton] at hw
      subst hw
      refine ⟨by simpa using h, fun c hc => hcur c (List.mem_reverse.mp hc)⟩
  | cons ch t ih =>
    intro cur hcur w hw
    unfold wordsAux at hw
    by_cases hsp : isPySpace ch = true
    · rw [hsp] at hw
      simp only [if_true] at hw
      split_ifs at hw with hcur0
      · exact ih [] (by simp) w hw
      · rcases List.mem_cons.mp hw with h | h
        · subst h
          refine ⟨by simpa using hcur0, fun c hc => hcur c (List.mem_reverse.mp hc)⟩
        · exact ih [] (by simp) w h
    · rw [Bool.not_eq_true] at hsp
      rw [hsp] at hw
      simp only [Bool.false_eq_true, if_false] at hw
      refine ih (ch :: cur) ?_ w hw
      intro d hd
      rcases List.mem_cons.mp hd with h | h
      · subst h; exact hsp
      · exact hcur d h

theorem mem_joinSp : ∀ (ws : List (List Char)) (c : Char), c ∈ joinSp ws →
    c = ' ' ∨ ∃ w ∈ ws, c ∈ w := by
  intro ws
  induction ws with
  | nil => intro c hc; simp [joinSp] at hc
  | cons w ws' ih =>
    intro c hc
    cases ws' with
    | nil =>
      rw [show joinSp [w] = w from rfl] at hc
      exact Or.inr ⟨w, by simp, hc⟩
    | cons v ws'' =>
      rw [show joinSp (w :: v :: ws'') = w ++ ' ' :: joinSp (v :: ws'') from rfl] at hc
      rcases List.mem_append.mp hc with h | h
      · exact Or.inr ⟨w, by simp, h⟩
      · rcases List.mem_cons.mp h with h | h
        · exact Or.inl h
        · rcases ih c h with h | ⟨u, hu, hcu⟩
          · exact Or.inl h
          · exact Or.inr ⟨u, by simp [hu], hcu⟩

theorem mem_wordsAux : ∀ (l cur w : List Char), w ∈ wordsAux l cur →
    ∀ c ∈ w, c ∈ l ∨ c ∈ cur := by
  intro l
  induction l with
  | nil =>
    intro cur w hw c hc
    unfold wordsAux at hw
    split_ifs at hw with h
    · simp at hw
    · simp only [List.mem_singleton] at hw
      subst hw
      exact Or.inr (List.mem_reverse.mp hc)
  | cons ch t ih =>
    intro cur w hw c hc
    unfold wordsAux at hw
    by_cases hsp : isPySpace ch = true
    · rw [hsp] at hw
      simp only [if_true] at hw
      split_ifs at hw with hcur0
      · rcases ih [] w hw c hc with h | h
        · exact Or.inl (by simp [h])
        · simp at h
      · rcases List.mem_cons.mp hw with h | h
        · subst h
          exact Or.inr (List.mem_reverse.mp hc)
        · rcases ih [] w h c hc with h2 | h2
          · exact Or.inl (by simp [h2])
          · simp at h2
    · rw [Bool.not_eq_true] at hsp
      rw [hsp] at hw
      simp only [Bool.false_eq_true, if_false] at hw
      rcases ih (ch :: cur) w hw c hc with h | h
      · exact Or.inl (by simp [h])
      · rcases List.mem_cons.mp h with h2 | h2
        · subst h2; exact Or.inl (by simp)
        · exact Or.inr h2

theorem wordsAux_joinSp : ∀ ws : List (List Char),
    (∀ w ∈ ws, w ≠ [] ∧ ∀ c ∈ w, isPySpace c = false) → wordsAux (joinSp ws) [] = ws := by
  intro ws
  induction ws with
  | nil => intro _; rfl
  | cons w ws' ih =>
    intro h
    obtain ⟨hne, hok⟩ := h w (by simp)
    cases ws' with
    | nil =>
      show wordsAux (joinSp [w]) [] = [w]
      rw [show joinSp [w] = w from rfl]
      have happ := wordsAux_append w [] [] hok
      rw [List.append_nil] at happ
      rw [happ]
      unfold wordsAux
      rw [List.append_nil, if_neg (by simpa using hne)]
      simp
    | cons v ws'' =>
      show wordsAux (w ++ ' ' :: joinSp (v :: ws'')) [] = w :: v :: ws''
      rw [wordsAux_append w (' ' :: joinSp (v :: ws'')) [] hok]
      rw [List.append_nil]
      unfold wordsAux
      rw [show isPySpace ' ' = true from rfl]
      simp only [if_true]
      rw [if_neg (by simpa using hne), List.reverse_reverse]
      rw [ih fun u hu => h u (by simp [hu])]

theorem flatMap_singleton_of_mem {l : List Char} {f : Char → List Char}
    (h : ∀ c ∈ l, f c = [c]) : l.flatMap f = l := by
  induction l with
  | nil => rfl
  | cons c t ih =>
    rw [List.flatMap_cons, h c (by simp), ih fun d hd => h d (by simp [hd])]
    rfl

theorem map_id_of_mem {l : List Char} {f : Char → Char} (h : ∀ c ∈ l, f c = c) :
    l.map f = l := by
  rw [List.map_congr_left h]
  simp

theorem normList_chars {l : List Char} {c : Char} (hc : c ∈ normList l) :
    charNFKC c = [c] ∧ pyLowerChar c = c ∧ (isWordChar c || isPySpace c) = true := by
  unfold normList collapseTrim at hc
  rcases mem_joinSp _ c hc with h | ⟨w, hw, hcw⟩
  · subst h
    refine ⟨by decide, by decide, by decide⟩
  · rcases mem_wordsAux _ [] w hw c hcw with h | h
    · have hmem := List.mem_filter.mp h
      obtain ⟨hin, hpred⟩ := hmem
      obtain ⟨d, hd, hcd⟩ := List.mem_map.mp hin
      obtain ⟨e, he, hde⟩ := List.mem_flatMap.mp hd
      subst hcd
      have h1 : charNFKC d = [d] := charNFKC_out_fixed hde
      exact ⟨charNFKC_lower_fixed h1, pyLowerChar_idem d, hpred⟩
    · simp at h

theorem normList_idem (l : List Char) : normList (normList l) = normList l := by
  have hfix : ∀ c ∈ normList l, charNFKC c = [c] := fun c hc => (normList_chars hc).1
  have hlow : ∀ c ∈ normList l, pyLowerChar c = c := fun c hc => (normList_chars hc).2.1
  have hkeep : ∀ c ∈ normList l, (isWordChar c || isPySpace c) = true :=
    fun c hc => (normList_chars hc).2.2
  set m := normList l with hm
  show normList m = m
  unfold normList
  rw [flatMap_singleton_of_mem hfix, map_id_of_mem hlow, List.filter_eq_self.mpr hkeep]
  rw [hm]
  show joinSp (wordsAux (normList l) []) = normList l
  have hrep : normList l = joinSp (wordsAux
      (((l.flatMap charNFKC).map pyLowerChar).filter fun c => isWordChar c || isPySpace c) []) :=
    rfl
  rw [hrep, wordsAux_joinSp _ (wordsAux_words_ok _ [] (by simp))]

/-- C7: `normalize_text` is idempotent — normalizing an already-normalized
string returns it unchanged (the normalized string contains only
normalization-fixed word characters and single interior spaces). -/
theorem normalize_text_idem (s : String) :
    normalize_text (normalize_text s) = normalize_text s := by
  unfold normalize_text
  by_cases h : s = ""
  · simp [h]
  · simp only [if_neg h]
    by_cases h2 : (⟨normList s.data⟩ : String) = ""
    · rw [if_pos h2, h2]
    · rw [if_neg h2]
      show (⟨normList (normList s.data)⟩ : String) = ⟨normList s.data⟩
      rw [normList_idem]

end Scraper
